import Mathlib

/-!
Verification of the TOON uniform-tabular-block parser (`toon.js`).

The JavaScript source is shallowly embedded below.  Strings are handled
through their character lists so that every definition is executable and
kernel-reducible.  JavaScript numbers produced by the scalar coercer are
modelled exactly: the finite values are carried as rationals (every numeric
value reached in this development is exactly representable as an IEEE-754
double, so no rounding behaviour is observable), with `Infinity`/`-Infinity`
as separate constructors and `NaN` represented by `Option.none` of the
string-to-number conversion.
-/

namespace Toon

/-- Characters treated as whitespace by JavaScript `String.prototype.trim`
(the WhiteSpace and LineTerminator productions of ECMAScript). -/
def isJsSpace (c : Char) : Bool :=
  c = ' ' || c = '\t' || c = '\n' || c = '\u000B' || c = '\u000C' || c = '\r' ||
  c = '\u00A0' || c = '\u1680' || ('\u2000' ≤ c && c ≤ '\u200A') ||
  c = '\u2028' || c = '\u2029' || c = '\u202F' || c = '\u205F' ||
  c = '\u3000' || c = '\uFEFF'

/-- JavaScript `s.trim()`: strip leading and trailing whitespace. -/
def jsTrim (s : String) : String :=
  String.mk (((s.data.dropWhile isJsSpace).reverse.dropWhile isJsSpace).reverse)

/-- JavaScript `String.prototype.split` with a single-character separator,
on character lists.  `split` never drops empty segments: `"".split(sep)`
is `[""]` and `"a,,b".split(',')` is `["a","","b"]`. -/
def splitOnChar (sep : Char) : List Char → List (List Char)
  | [] => [[]]
  | c :: rest =>
    match splitOnChar sep rest with
    | [] => [[]]
    | h :: t => if c = sep then [] :: h :: t else (c :: h) :: t

/-- JavaScript `s.split(sep)` for a one-character separator. -/
def jsSplit (sep : Char) (s : String) : List String :=
  (splitOnChar sep s.data).map String.mk

/-- Whether the character list `cs` begins with the character list `p`
(JavaScript `String.prototype.startsWith`). -/
def startsWithChars : List Char → List Char → Bool
  | _, [] => true
  | [], _ :: _ => false
  | c :: cs, p :: ps => c = p && startsWithChars cs ps

/-- ASCII decimal digit (`\d` in the source's regular expressions). -/
def isDigitChar (c : Char) : Bool := '0' ≤ c && c ≤ '9'

/-- First character of a JavaScript identifier as required by the header
regular expression: `[A-Za-z_]`. -/
def isIdentStartChar (c : Char) : Bool :=
  ('A' ≤ c && c ≤ 'Z') || ('a' ≤ c && c ≤ 'z') || c = '_'

/-- Word character (`\w` in the source's regular expressions):
`[A-Za-z0-9_]`. -/
def isWordChar (c : Char) : Bool := isIdentStartChar c || isDigitChar c

/-- Value of a list of ASCII decimal digits read left to right in base 10
(the result of `parseInt(digits, 10)` on a pure digit string). -/
def digitsToNat (ds : List Char) : ℕ :=
  ds.foldl (fun a c => 10 * a + (c.toNat - '0'.toNat)) 0

/-- A JavaScript number that is not `NaN`: a finite double (carried exactly
as a rational) or a signed infinity. -/
inductive JSNum where
  | finite (q : ℚ)
  | inf (neg : Bool)
deriving DecidableEq, Repr

/-- Value of one digit in radices up to 16, as accepted by the
`NonDecimalIntegerLiteral` production (`0x…`, `0o…`, `0b…`). -/
def radixDigitVal? (c : Char) : Option ℕ :=
  if isDigitChar c then some (c.toNat - '0'.toNat)
  else if 'a' ≤ c.toLower ∧ c.toLower ≤ 'f' then some (c.toLower.toNat - 'a'.toNat + 10)
  else none

/-- Parse a non-empty all-digit string in the given radix; `none` when the
digit list is empty or a character is not a digit of the radix. -/
def parseRadix? (radix : ℕ) (ds : List Char) : Option ℕ :=
  if ds.isEmpty then none
  else
    ds.foldl
      (fun acc c =>
        acc.bind fun a =>
          (radixDigitVal? c).bind fun v =>
            if v < radix then some (radix * a + v) else none)
      (some 0)

/-- Optional exponent part of a `StrDecimalLiteral`: the empty list yields
exponent `0`; otherwise `e`/`E`, an optional sign and one or more digits,
consuming the whole list. -/
def parseExp? : List Char → Option ℤ
  | [] => some 0
  | c :: rest =>
    if c = 'e' || c = 'E' then
      match rest with
      | '+' :: body =>
        if !body.isEmpty && body.all isDigitChar then some (digitsToNat body) else none
      | '-' :: body =>
        if !body.isEmpty && body.all isDigitChar then some (-(digitsToNat body : ℤ)) else none
      | body =>
        if !body.isEmpty && body.all isDigitChar then some (digitsToNat body) else none
    else none

/-- `StrUnsignedDecimalLiteral` without the `Infinity` alternative:
`digits [. digits] [exp]` or `. digits [exp]`, consuming the whole list. -/
def parseUnsignedDec? (cs : List Char) : Option ℚ :=
  match cs.dropWhile isDigitChar with
  | [] =>
    if (cs.takeWhile isDigitChar).isEmpty then none
    else some (digitsToNat (cs.takeWhile isDigitChar) : ℚ)
  | '.' :: r2 =>
    if (cs.takeWhile isDigitChar).isEmpty && (r2.takeWhile isDigitChar).isEmpty then none
    else
      (parseExp? (r2.dropWhile isDigitChar)).map fun e =>
        ((digitsToNat (cs.takeWhile isDigitChar) : ℚ) +
            (digitsToNat (r2.takeWhile isDigitChar) : ℚ) /
              10 ^ (r2.takeWhile isDigitChar).length) *
          (10 : ℚ) ^ e
  | r1 =>
    if (cs.takeWhile isDigitChar).isEmpty then none
    else
      (parseExp? r1).map fun e =>
        (digitsToNat (cs.takeWhile isDigitChar) : ℚ) * (10 : ℚ) ^ e

/-- `StrDecimalLiteral`: optional sign, then `Infinity` or an unsigned
decimal literal. -/
def parseSignedDec? (cs : List Char) : Option JSNum :=
  match cs with
  | '+' :: body =>
    if body = "Infinity".data then some (.inf false)
    else (parseUnsignedDec? body).map fun q => .finite q
  | '-' :: body =>
    if body = "Infinity".data then some (.inf true)
    else (parseUnsignedDec? body).map fun q => .finite (-q)
  | body =>
    if body = "Infinity".data then some (.inf false)
    else (parseUnsignedDec? body).map fun q => .finite q

/-- ECMAScript `Number(string)` on an already-trimmed string: `none` models
`NaN`.  The empty string converts to `0`; `0x…`/`0o…`/`0b…` are radix
literals (no sign allowed); everything else is a signed decimal literal or
`Infinity`. -/
def jsStrToNum? (t : String) : Option JSNum :=
  match t.data with
  | [] => some (.finite 0)
  | '0' :: c :: rest =>
    if c = 'x' || c = 'X' then (parseRadix? 16 rest).map fun n => .finite n
    else if c = 'o' || c = 'O' then (parseRadix? 8 rest).map fun n => .finite n
    else if c = 'b' || c = 'B' then (parseRadix? 2 rest).map fun n => .finite n
    else parseSignedDec? ('0' :: c :: rest)
  | cs => parseSignedDec? cs

/-- One coerced TOON scalar: the result type of `parseValue`. -/
inductive Scalar where
  | bool (b : Bool)
  | null
  | num (n : JSNum)
  | str (s : String)
deriving DecidableEq, Repr

/-- A character matched by `.` in a JavaScript regular expression without
the `s` flag: anything but a line terminator. -/
def jsRegexDotChar (c : Char) : Bool :=
  c ≠ '\n' && c ≠ '\r' && c ≠ '\u2028' && c ≠ '\u2029'

/-- JavaScript `t.replace(/^"(.*)"$/, '$1')`: when the whole string is a
pair of double quotes around line-terminator-free content, return the
content; otherwise return the string unchanged. -/
def stripQuotes (t : String) : String :=
  if 2 ≤ t.data.length ∧ t.data.head? = some '"' ∧ t.data.getLast? = some '"' ∧
      ((t.data.drop 1).dropLast.all jsRegexDotChar) = true
  then String.mk ((t.data.drop 1).dropLast)
  else t

/-- The scalar coercer `parseValue` of `toon.js`: trim, then the
`true`/`false`/`null` fast paths on the raw token, then the numeric rule
(`Number(t)` with a `Number.isNaN` guard), and finally quote stripping. -/
def parseValue (raw : String) : Scalar :=
  if jsTrim raw = "true" then .bool true
  else if jsTrim raw = "false" then .bool false
  else if jsTrim raw = "null" then .null
  else
    match jsStrToNum? (jsTrim raw) with
    | some n => .num n
    | none => .str (stripQuotes (jsTrim raw))

example : parseValue "true" = .bool true := by decide
example : parseValue "false" = .bool false := by decide
example : parseValue "null" = .null := by decide
example : parseValue "42" = .num (.finite 42) := by decide
example : parseValue "-2" = .num (.finite (-2)) := by decide
example : parseValue "\"hello\"" = .str "hello" := by decide
example : parseValue "hello" = .str "hello" := by decide
example : parseValue "" = .num (.finite 0) := by decide
example : parseValue "\"true\"" = .str "true" := by decide
example : parseValue "0x10" = .num (.finite 16) := by decide
example : parseValue "Infinity" = .num (.inf false) := by decide
example : parseValue "1x" = .str "1x" := by decide
example : parseValue "  7 " = .num (.finite 7) := by decide

/-! ### Header matcher and decomposer -/

/-- Characters allowed inside the braces of a header: `[^}]`. -/
def isContentChar (c : Char) : Bool := c ≠ '}'

/-- The anchored header regular expression
`^[A-Za-z_][\w]*\[\d+\]\{[^}]+\}:$` of `toon.js`, as a deterministic
matcher on character lists.  Because `[` is not a word character, `]` is
not a digit and the content class excludes `}`, the greedy quantifiers of
the regular expression never backtrack, so longest-scan matching is exact.
On success the three capture-relevant pieces (identifier, digits, brace
content) are returned. -/
def matchHeader : List Char → Option (List Char × List Char × List Char)
  | [] => none
  | c :: rest =>
    if isIdentStartChar c then
      match rest.dropWhile isWordChar with
      | '[' :: r2 =>
        if (r2.takeWhile isDigitChar).isEmpty then none
        else
          match r2.dropWhile isDigitChar with
          | ']' :: '{' :: r4 =>
            if (r4.takeWhile isContentChar).isEmpty then none
            else
              match r4.dropWhile isContentChar with
              | '}' :: [':'] =>
                some (c :: rest.takeWhile isWordChar, r2.takeWhile isDigitChar,
                  r4.takeWhile isContentChar)
              | _ => none
          | _ => none
      | _ => none
    else none

/-- `isHeader` of `toon.js`: the regular-expression test. -/
def isHeader (line : String) : Bool := (matchHeader line.data).isSome

/-- The header tuple `{ name, count, fields[] }`. -/
structure Header where
  name : String
  count : ℕ
  fields : List String
deriving DecidableEq, Repr

/-- Field-list extraction of `parseHeader`:
`m[3].split(',').map(f => f.trim()).filter(Boolean)` — the brace content
split on commas, each piece trimmed, empty pieces dropped. -/
def parseFields (content : List Char) : List String :=
  (((splitOnChar ',' content).map fun f => jsTrim (String.mk f)).filter fun f => f ≠ "")

/-- `parseHeader` of `toon.js`: re-match the header regular expression and
extract name, declared count (`parseInt(m[2], 10)`) and field list. -/
def parseHeader (line : String) : Option Header :=
  (matchHeader line.data).map fun m =>
    { name := String.mk m.1, count := digitsToNat m.2.1, fields := parseFields m.2.2 }

example : isHeader "points[3]{x,y,size}:" = true := by decide
example : isHeader "points[3]{x,y,size}:extra" = false := by decide
example : isHeader "points[]{x}:" = false := by decide
example : isHeader "points[3]{}:" = false := by decide
example : isHeader "9points[3]{x}:" = false := by decide
example : parseHeader "points[3]{x, y ,size}:" =
    some ⟨"points", 3, ["x", "y", "size"]⟩ := by decide
example : parseHeader "a[1]{ , }:" = some ⟨"a", 1, []⟩ := by decide

/-! ### Block assembly -/

/-- Row tokenization in `parseFromString`:
`lines[i].split(',').map(v => v.trim()).filter(Boolean)` — note that the
`filter(Boolean)` drops every token that is empty after trimming, wherever
it occurs in the row. -/
def splitRow (line : String) : List String :=
  ((jsSplit ',' line).map jsTrim).filter fun v => v ≠ ""

example : splitRow "1,,3" = ["1", "3"] := by decide
example : splitRow "120, 150 ,10" = ["120", "150", "10"] := by decide

/-- One parsed record: a JavaScript object created by `{}`.  `own` lists
its own properties in insertion (first-assignment) order; `protoNull`
records whether its prototype has been detached by a `__proto__: null`
write (a fresh object inherits from `Object.prototype`, whose `__proto__`
accessor intercepts assignments to that key).  ECMAScript additionally
enumerates array-index-like own keys numerically before the others; that
reordering is not modelled, so key-order statements below assume
index-free field names (`isArrayIndexName`). -/
structure Record where
  own : List (String × Scalar)
  protoNull : Bool
deriving DecidableEq, Repr

/-- A canonical array-index property name (all digits, no leading zero
except `0` itself, value below `2^32 - 1`): ECMAScript orders such own
keys numerically before the remaining keys. -/
def isArrayIndexName (s : String) : Bool :=
  match s.data with
  | [] => false
  | c :: cs =>
    (c :: cs).all isDigitChar && (c ≠ '0' || cs.isEmpty) &&
      digitsToNat (c :: cs) < 4294967295

/-- Own-property write on an insertion-ordered property list: overwrite in
place when the key exists, append otherwise. -/
def objInsert : List (String × Scalar) → String → Scalar → List (String × Scalar)
  | [], k, v => [(k, v)]
  | (k', v') :: rest, k, v =>
    if k' = k then (k, v) :: rest else (k', v') :: objInsert rest k v

/-- JavaScript `obj[k] = v` on a record object.  While the prototype is
attached, an assignment to `__proto__` hits the inherited accessor and
creates no own key: a `null` value detaches the prototype, any other
value produced by the scalar coercer is a primitive and is silently
ignored.  Every other key (including names shadowing the *data*
properties of `Object.prototype`, such as `toString`) is a plain own
write; after the prototype is detached, `__proto__` writes are plain own
writes too. -/
def objSet (o : Record) (k : String) (v : Scalar) : Record :=
  if k = "__proto__" ∧ o.protoNull = false then
    if v = Scalar.null then { o with protoNull := true } else o
  else
    { o with own := objInsert o.own k v }

/-- Key lookup in an insertion-ordered association list (JavaScript own
property read, `undefined` as `none`). -/
def alookup {β : Type} (k : String) : List (String × β) → Option β
  | [] => none
  | (k', v) :: rest => if k' = k then some v else alookup k rest

/-- The field-mapping loop of `parseFromString`:
`for j: obj[fields[j]] = parseValue(row[j] !== undefined ? row[j] : '')`. -/
def mkRecordGo (row : List String) : Record → ℕ → List String → Record
  | obj, _, [] => obj
  | obj, j, f :: fs =>
    mkRecordGo row (objSet obj f (parseValue (row.getD j ""))) (j + 1) fs

/-- Assemble one record from a header's field list and a tokenized row,
starting from a fresh `{}`. -/
def mkRecord (fields row : List String) : Record := mkRecordGo row ⟨[], false⟩ 0 fields

example : mkRecord ["a", "b", "c"] (splitRow "1,,3") =
    ⟨[("a", .num (.finite 1)), ("b", .num (.finite 3)), ("c", .num (.finite 0))],
      false⟩ := by
  decide

example : mkRecord ["__proto__"] (splitRow "1") = ⟨[], false⟩ := by decide
example : mkRecord ["__proto__"] (splitRow "null") = ⟨[], true⟩ := by decide

/-! ### Document parser -/

/-- One `console.warn` diagnostic about a declared/parsed row-count
mismatch.  The model always records the diagnostic; the source only guards
emission on `typeof console !== 'undefined'` (host detection). -/
structure Warning where
  name : String
  expected : ℕ
  parsed : ℕ
deriving DecidableEq, Repr

/-- The parse result object: block name to record list, insertion
ordered. -/
abbrev Document := List (String × List Record)

instance {ε α : Type} [DecidableEq ε] [DecidableEq α] : DecidableEq (Except ε α) :=
  fun a b =>
  match a, b with
  | .error e₁, .error e₂ => decidable_of_iff (e₁ = e₂) (by simp)
  | .ok v₁, .ok v₂ => decidable_of_iff (v₁ = v₂) (by simp)
  | .error _, .ok _ => isFalse fun hc => nomatch hc
  | .ok _, .error _ => isFalse fun hc => nomatch hc

/-- The string-keyed properties a fresh `{}` inherits from
`Object.prototype` (including the Annex-B accessors present in every
mainstream engine): for these names `result[name]` is truthy — a function,
or the prototype object itself for `__proto__` — even when `result` has no
own key `name`. -/
def objectPrototypeProps : List String :=
  ["constructor", "hasOwnProperty", "isPrototypeOf", "propertyIsEnumerable",
   "toLocaleString", "toString", "valueOf", "__proto__",
   "__defineGetter__", "__defineSetter__", "__lookupGetter__", "__lookupSetter__"]

/-- The `TypeError` thrown by `result[name].concat(rows)` when
`result[name]` is an inherited non-array (the message text is
host-defined; this fixed string stands for the thrown `TypeError`). -/
def concatTypeError : String := "TypeError: result[name].concat is not a function"

/-- The own-property part of the merge step: overwrite-in-place append on
an existing key, new key at the end otherwise.  This is what
`result[name] = rows` / `result[name] = result[name].concat(rows)` does
whenever it does not throw. -/
def docAddOwn : Document → String → List Record → Document
  | [], name, rows => [(name, rows)]
  | (k, v) :: rest, name, rows =>
    if k = name then (k, v ++ rows) :: rest else (k, v) :: docAddOwn rest name rows

/-- The merge step of `parseFromString`:
`if (!result[name]) result[name] = rows; else result[name] = result[name].concat(rows)`.
Stored values are arrays (truthy), so an own key always takes the concat
branch and succeeds.  Without an own key, `result[name]` is `undefined`
(falsy) for ordinary names — the assignment branch — but for names
inherited from `Object.prototype` it is a truthy non-array, so the code
calls `.concat` on it and throws a `TypeError`.  (`result`'s own
`__proto__` key can never be created: the inherited getter returns the
truthy prototype first, so that name throws here too.) -/
def docAdd : Document → String → List Record → Except String Document
  | [], name, rows =>
    if name ∈ objectPrototypeProps then Except.error concatTypeError
    else Except.ok [(name, rows)]
  | (k, v) :: rest, name, rows =>
    if k = name then Except.ok ((k, v ++ rows) :: rest)
    else (docAdd rest name rows).map fun d => (k, v) :: d

/-- The inner `while` of `parseFromString`: consume data lines, building
one record per line, until the next header or end of input; return the
records together with the unconsumed suffix. -/
def consumeRows (fields : List String) : List String → List Record × List String
  | [] => ([], [])
  | l :: rest =>
    if isHeader l then ([], l :: rest)
    else
      match consumeRows fields rest with
      | (rs, rem) => (mkRecord fields (splitRow l) :: rs, rem)

theorem consumeRows_snd_length (fields : List String) :
    ∀ ls : List String, (consumeRows fields ls).2.length ≤ ls.length := by
  intro ls
  induction ls with
  | nil => simp [consumeRows]
  | cons l rest ih =>
    simp only [consumeRows]
    split
    · simp
    · simpa using Nat.le_succ_of_le ih

/-- The outer `while` of `parseFromString`: skip non-header lines; on a
header, decompose it, consume its rows, merge them into the accumulated
document and record a diagnostic when the parsed row count differs from
the declared one.  `acc` and `ws` thread the mutable `result` object and
the emitted warnings.  A `TypeError` thrown by the merge aborts the scan
(the count diagnostic of that block is never reached); the warnings
emitted before the throw are the `console.warn` side effects that have
already happened, so the result pairs the document-or-error with them. -/
def parseAux (acc : Document) (ws : List Warning) :
    List String → Except String Document × List Warning
  | [] => (Except.ok acc, ws)
  | l :: rest =>
    if isHeader l then
      match parseHeader l with
      | some hdr =>
        match docAdd acc hdr.name (consumeRows hdr.fields rest).1 with
        | Except.error e => (Except.error e, ws)
        | Except.ok acc' =>
          parseAux acc'
            (ws ++ (if (consumeRows hdr.fields rest).1.length ≠ hdr.count then
              [⟨hdr.name, hdr.count, (consumeRows hdr.fields rest).1.length⟩] else []))
            (consumeRows hdr.fields rest).2
      | none => parseAux acc ws rest
    else parseAux acc ws rest
termination_by ls => ls.length
decreasing_by
  · have := consumeRows_snd_length hdr.fields rest
    simp only [List.length_cons]
    omega
  · simp
  · simp

/-- The pre-clean filter of `parseFromString`:
`l.length > 0 && !l.startsWith('#') && !l.startsWith('//')`. -/
def keepLine (l : String) : Bool :=
  0 < l.length && !(startsWithChars l.data ['#']) && !(startsWithChars l.data ['/', '/'])

/-- The pre-clean of `parseFromString`: split the buffer on newlines, trim
every line, drop empty and comment lines. -/
def normalize (text : String) : List String :=
  ((jsSplit '\n' text).map jsTrim).filter keepLine

/-- `parseFromString` of `toon.js`: pre-clean, then the header/row scan.
The returned value is the document, or the merge `TypeError` when a block
name collides with an `Object.prototype` property; the warnings are the
`console.warn` side effects, exposed separately by `parseWarnings`. -/
def parseFromString (text : String) : Except String Document :=
  (parseAux [] [] (normalize text)).1

/-- The `console.warn` diagnostics emitted while parsing a buffer (also
those emitted before an abort). -/
def parseWarnings (text : String) : List Warning :=
  (parseAux [] [] (normalize text)).2

/-- `parseFromLines` of `toon.js`: the p5.js-facing wrapper.  An argument
that is not an array is modelled as `none`, an array of line strings as
`some`; the `Array.isArray` failure throws with the message below, and any
`TypeError` thrown inside `parseFromString` propagates. -/
def parseFromLines (arg : Option (List String)) : Except String Document :=
  match arg with
  | none => Except.error "Toon.parseFromLines expects an array of strings"
  | some lines => parseFromString (String.intercalate "\n" lines)

/-- The per-block view of a normalized line sequence: every header line
paired with the records its block assembles, in document order.  This is
the specification-side reading of the scan; `parseAux` folds exactly these
blocks into the document. -/
def blockList : List String → List (String × List Record)
  | [] => []
  | l :: rest =>
    if isHeader l then
      match parseHeader l with
      | some hdr =>
        (hdr.name, (consumeRows hdr.fields rest).1) ::
          blockList (consumeRows hdr.fields rest).2
      | none => blockList rest
    else blockList rest
termination_by ls => ls.length
decreasing_by
  · have := consumeRows_snd_length hdr.fields rest
    simp only [List.length_cons]
    omega
  · simp
  · simp


/-! ### Fuel-indexed evaluation twins

`parseAux` and `blockList` recurse on a list suffix computed by
`consumeRows`, so they are defined by well-founded recursion, which the
kernel cannot evaluate definitionally.  The following fuel-indexed
functions have the same bodies with structural recursion on the fuel;
each outer iteration consumes at least one line, so the line count is
enough fuel.  They exist purely so that concrete runs of the parser can
be checked by `decide`. -/

def parseAuxF : ℕ → Document → List Warning → List String →
    Except String Document × List Warning
  | _, acc, ws, [] => (Except.ok acc, ws)
  | 0, acc, ws, _ :: _ => (Except.ok acc, ws)
  | fuel + 1, acc, ws, l :: rest =>
    if isHeader l then
      match parseHeader l with
      | some hdr =>
        match docAdd acc hdr.name (consumeRows hdr.fields rest).1 with
        | Except.error e => (Except.error e, ws)
        | Except.ok acc' =>
          parseAuxF fuel acc'
            (ws ++ (if (consumeRows hdr.fields rest).1.length ≠ hdr.count then
              [⟨hdr.name, hdr.count, (consumeRows hdr.fields rest).1.length⟩] else []))
            (consumeRows hdr.fields rest).2
      | none => parseAuxF fuel acc ws rest
    else parseAuxF fuel acc ws rest

def blockListF : ℕ → List String → List (String × List Record)
  | _, [] => []
  | 0, _ :: _ => []
  | fuel + 1, l :: rest =>
    if isHeader l then
      match parseHeader l with
      | some hdr =>
        (hdr.name, (consumeRows hdr.fields rest).1) ::
          blockListF fuel (consumeRows hdr.fields rest).2
      | none => blockListF fuel rest
    else blockListF fuel rest

theorem parseAux_eq_fuel :
    ∀ (fuel : ℕ) (ls : List String), ls.length ≤ fuel →
      ∀ acc ws, parseAux acc ws ls = parseAuxF fuel acc ws ls := by
  intro fuel
  induction fuel with
  | zero =>
    intro ls h acc ws
    have hnil : ls = [] := List.length_eq_zero.mp (Nat.le_zero.mp h)
    subst hnil
    simp [parseAux, parseAuxF]
  | succ fuel ih =>
    intro ls h acc ws
    cases ls with
    | nil => simp [parseAux, parseAuxF]
    | cons l rest =>
      simp only [List.length_cons, Nat.succ_le_succ_iff] at h
      by_cases hH : isHeader l
      · cases hp : parseHeader l with
        | none => simp only [parseAux, parseAuxF, hH, if_true, hp]; exact ih rest h acc ws
        | some hdr =>
          simp only [parseAux, parseAuxF, hH, if_true, hp]
          cases hd : docAdd acc hdr.name (consumeRows hdr.fields rest).1 with
          | error e => rfl
          | ok acc' =>
            exact ih _ (le_trans (consumeRows_snd_length hdr.fields rest) h) _ _
      · simp only [parseAux, parseAuxF, hH, if_false]
        exact ih rest h acc ws

theorem blockList_eq_fuel :
    ∀ (fuel : ℕ) (ls : List String), ls.length ≤ fuel →
      blockList ls = blockListF fuel ls := by
  intro fuel
  induction fuel with
  | zero =>
    intro ls h
    have hnil : ls = [] := List.length_eq_zero.mp (Nat.le_zero.mp h)
    subst hnil
    simp [blockList, blockListF]
  | succ fuel ih =>
    intro ls h
    cases ls with
    | nil => simp [blockList, blockListF]
    | cons l rest =>
      simp only [List.length_cons, Nat.succ_le_succ_iff] at h
      by_cases hH : isHeader l
      · cases hp : parseHeader l with
        | none => simp only [blockList, blockListF, hH, if_true, hp]; exact ih rest h
        | some hdr =>
          simp only [blockList, blockListF, hH, if_true, hp]
          exact congrArg _ (ih _ (le_trans (consumeRows_snd_length hdr.fields rest) h))
      · simp only [blockList, blockListF, hH, if_false]
        exact ih rest h

/-- Evaluation form of `parseFromString`. -/
theorem parseFromString_eval (text : String) :
    parseFromString text = (parseAuxF (normalize text).length [] [] (normalize text)).1 := by
  unfold parseFromString
  rw [parseAux_eq_fuel (normalize text).length (normalize text) le_rfl]

/-- Evaluation form of `parseWarnings`. -/
theorem parseWarnings_eval (text : String) :
    parseWarnings text = (parseAuxF (normalize text).length [] [] (normalize text)).2 := by
  unfold parseWarnings
  rw [parseAux_eq_fuel (normalize text).length (normalize text) le_rfl]

example : parseFromString "name[1]{a}:\n1" =
    Except.ok [("name", [⟨[("a", Scalar.num (.finite 1))], false⟩])] := by
  rw [parseFromString_eval]; decide

example : parseFromString "toString[1]{x}:\n1" = Except.error concatTypeError := by
  rw [parseFromString_eval]; decide

/-! ### Association-list lemmas for records and documents -/

theorem alookup_objInsert (k k' : String) (v : Scalar) :
    ∀ r : List (String × Scalar), alookup k' (objInsert r k v) =
      if k = k' then some v else alookup k' r := by
  intro r
  induction r with
  | nil => simp [objInsert, alookup]
  | cons e rest ih =>
    obtain ⟨k₀, v₀⟩ := e
    by_cases h₀ : k₀ = k
    · subst h₀
      by_cases h' : k₀ = k'
      · subst h'; simp [objInsert, alookup]
      · simp [objInsert, alookup, h']
    · by_cases h' : k₀ = k'
      · subst h'
        have : ¬ k = k₀ := fun hc => h₀ hc.symm
        simp [objInsert, alookup, h₀, this]
      · simp [objInsert, alookup, h₀, h', ih]

theorem mem_keys_objInsert (k f : String) (v : Scalar) :
    ∀ r : List (String × Scalar),
      (f ∈ (objInsert r k v).map Prod.fst ↔ f = k ∨ f ∈ r.map Prod.fst) := by
  intro r
  induction r with
  | nil => simp [objInsert]
  | cons e rest ih =>
    obtain ⟨k₀, v₀⟩ := e
    by_cases h₀ : k₀ = k
    · subst h₀; simp [objInsert]
    · simp [objInsert, h₀, ih]; tauto

theorem objInsert_of_not_mem (k : String) (v : Scalar) :
    ∀ r : List (String × Scalar), k ∉ r.map Prod.fst → objInsert r k v = r ++ [(k, v)] := by
  intro r
  induction r with
  | nil => simp [objInsert]
  | cons e rest ih =>
    obtain ⟨k₀, v₀⟩ := e
    intro h
    simp only [List.map_cons, List.mem_cons] at h
    push_neg at h
    have h₀ : ¬ k₀ = k := fun hc => h.1 hc.symm
    simp [objInsert, h₀, ih h.2]

/-- For keys other than `__proto__`, a record assignment is a plain own
write (on any prototype state). -/
theorem objSet_ne_proto (o : Record) (k : String) (v : Scalar) (hk : k ≠ "__proto__") :
    objSet o k v = { o with own := objInsert o.own k v } := by
  simp [objSet, hk]

theorem alookup_mkRecordGo_of_not_mem (row : List String) :
    ∀ (fs : List String) (obj : Record) (j : ℕ) (f : String),
      f ∉ fs → "__proto__" ∉ fs →
      alookup f (mkRecordGo row obj j fs).own = alookup f obj.own := by
  intro fs
  induction fs with
  | nil => intro obj j f _ _; simp [mkRecordGo]
  | cons g fs ih =>
    intro obj j f hf hp
    simp only [List.mem_cons] at hf hp
    push_neg at hf hp
    simp only [mkRecordGo]
    rw [ih _ _ _ hf.2 hp.2, objSet_ne_proto _ _ _ (fun hc => hp.1 hc.symm)]
    rw [alookup_objInsert]
    exact if_neg fun hc => hf.1 hc.symm

theorem alookup_mkRecordGo_nodup (row : List String) :
    ∀ (fs : List String) (obj : Record) (j i : ℕ) (h : i < fs.length),
      fs.Nodup → "__proto__" ∉ fs →
      alookup (fs.get ⟨i, h⟩) (mkRecordGo row obj j fs).own =
        some (parseValue (row.getD (j + i) "")) := by
  intro fs
  induction fs with
  | nil => intro obj j i h; simp at h
  | cons g fs ih =>
    intro obj j i h hnd hp
    simp only [List.nodup_cons] at hnd
    simp only [List.mem_cons] at hp
    push_neg at hp
    cases i with
    | zero =>
      simp only [List.get, mkRecordGo]
      rw [alookup_mkRecordGo_of_not_mem row fs _ _ _ hnd.1 hp.2,
        objSet_ne_proto _ _ _ (fun hc => hp.1 hc.symm), alookup_objInsert]
      simp
    | succ i =>
      simp only [List.get, mkRecordGo]
      rw [show j + (i + 1) = j + 1 + i by omega]
      exact ih _ (j + 1) i (Nat.lt_of_succ_lt_succ h) hnd.2 hp.2

theorem mem_keys_mkRecordGo (row : List String) :
    ∀ (fs : List String) (obj : Record) (j : ℕ) (f : String), "__proto__" ∉ fs →
      (f ∈ (mkRecordGo row obj j fs).own.map Prod.fst ↔
        f ∈ obj.own.map Prod.fst ∨ f ∈ fs) := by
  intro fs
  induction fs with
  | nil => intro obj j f _; simp [mkRecordGo]
  | cons g fs ih =>
    intro obj j f hp
    simp only [List.mem_cons] at hp
    push_neg at hp
    simp only [mkRecordGo]
    rw [ih _ _ _ hp.2, objSet_ne_proto _ _ _ (fun hc => hp.1 hc.symm)]
    rw [show ({ obj with own := objInsert obj.own g (parseValue (row.getD j "")) } :
        Record).own = objInsert obj.own g (parseValue (row.getD j "")) from rfl]
    rw [mem_keys_objInsert]
    simp
    tauto

theorem keys_mkRecordGo_nodup (row : List String) :
    ∀ (fs : List String) (obj : Record) (j : ℕ), fs.Nodup → "__proto__" ∉ fs →
      (∀ f ∈ fs, f ∉ obj.own.map Prod.fst) →
      (mkRecordGo row obj j fs).own.map Prod.fst = obj.own.map Prod.fst ++ fs := by
  intro fs
  induction fs with
  | nil => intro obj j _ _ _; simp [mkRecordGo]
  | cons g fs ih =>
    intro obj j hnd hp hdisj
    simp only [List.nodup_cons] at hnd
    simp only [List.mem_cons] at hp
    push_neg at hp
    simp only [mkRecordGo]
    rw [objSet_ne_proto _ _ _ (fun hc => hp.1 hc.symm),
      objInsert_of_not_mem _ _ _ (hdisj g (by simp)),
      ih { obj with own := obj.own ++ [(g, parseValue (row.getD j ""))] } (j + 1)
        hnd.2 hp.2]
    · simp
    · intro f hf
      simp only [List.map_append, List.mem_append]
      push_neg
      refine ⟨hdisj f (by simp [hf]), ?_⟩
      intro hc
      simp at hc
      exact hnd.1 (hc ▸ hf)

theorem keys_mkRecord_nodup (fields row : List String) (hnd : fields.Nodup)
    (hp : "__proto__" ∉ fields) :
    (mkRecord fields row).own.map Prod.fst = fields := by
  unfold mkRecord
  rw [keys_mkRecordGo_nodup row fields ⟨[], false⟩ 0 hnd hp (by simp)]
  simp

theorem mem_keys_mkRecord (fields row : List String) (f : String)
    (hp : "__proto__" ∉ fields) :
    f ∈ (mkRecord fields row).own.map Prod.fst ↔ f ∈ fields := by
  unfold mkRecord
  rw [mem_keys_mkRecordGo row fields ⟨[], false⟩ 0 f hp]
  simp

theorem alookup_mkRecord_nodup (fields row : List String) (i : ℕ)
    (h : i < fields.length) (hnd : fields.Nodup) (hp : "__proto__" ∉ fields) :
    alookup (fields.get ⟨i, h⟩) (mkRecord fields row).own =
      some (parseValue (row.getD i "")) := by
  unfold mkRecord
  have := alookup_mkRecordGo_nodup row fields ⟨[], false⟩ 0 i h hnd hp
  simpa using this

/-- `consumeRows` consumes exactly the longest header-free prefix and maps
the block-assembly step over it. -/
theorem consumeRows_eq (fields : List String) :
    ∀ ls : List String,
      consumeRows fields ls =
        ((ls.takeWhile fun l => !isHeader l).map fun l => mkRecord fields (splitRow l),
          ls.dropWhile fun l => !isHeader l) := by
  intro ls
  induction ls with
  | nil => simp [consumeRows]
  | cons l rest ih =>
    by_cases hH : isHeader l
    · simp [consumeRows, hH, List.takeWhile_cons, List.dropWhile_cons]
    · simp [consumeRows, hH, List.takeWhile_cons, List.dropWhile_cons, ih]

/-- Splitting a concatenation at a boundary where the predicate first
fails: `takeWhile` keeps exactly the left part and `dropWhile` exactly the
right part. -/
theorem takeWhile_append_eq {α : Type} (p : α → Bool) :
    ∀ l₁ l₂ : List α, (∀ x ∈ l₁, p x = true) →
      (∀ c, l₂.head? = some c → p c = false) →
      (l₁ ++ l₂).takeWhile p = l₁ ∧ (l₁ ++ l₂).dropWhile p = l₂ := by
  intro l₁
  induction l₁ with
  | nil =>
    intro l₂ _ h₂
    cases l₂ with
    | nil => simp
    | cons c t => simp [List.takeWhile_cons, List.dropWhile_cons, h₂ c rfl]
  | cons a l₁ ih =>
    intro l₂ h₁ h₂
    have ha : p a = true := h₁ a (by simp)
    have := ih l₂ (fun x hx => h₁ x (by simp [hx])) h₂
    simp [List.takeWhile_cons, List.dropWhile_cons, ha, this.1, this.2]

theorem alookup_docAddOwn (name k : String) (rows : List Record) :
    ∀ doc : Document,
      alookup k (docAddOwn doc name rows) =
        if name = k then some ((alookup name doc).getD [] ++ rows)
        else alookup k doc := by
  intro doc
  induction doc with
  | nil => simp [docAddOwn, alookup]
  | cons e rest ih =>
    obtain ⟨k₀, v₀⟩ := e
    by_cases h₀ : k₀ = name
    · subst h₀
      by_cases h' : k₀ = k
      · subst h'; simp [docAddOwn, alookup]
      · simp [docAddOwn, alookup, h', fun hc : k₀ = k => h' hc]
    · by_cases h' : k₀ = k
      · subst h'
        have : ¬ name = k₀ := fun hc => h₀ hc.symm
        simp [docAddOwn, alookup, h₀, this]
      · simp [docAddOwn, alookup, h₀, h', ih]

theorem mem_keys_docAddOwn (name k : String) (rows : List Record) :
    ∀ doc : Document,
      (k ∈ (docAddOwn doc name rows).map Prod.fst ↔ k = name ∨ k ∈ doc.map Prod.fst) := by
  intro doc
  induction doc with
  | nil => simp [docAddOwn]
  | cons e rest ih =>
    obtain ⟨k₀, v₀⟩ := e
    by_cases h₀ : k₀ = name
    · subst h₀; simp [docAddOwn]
    · simp [docAddOwn, h₀, ih]; tauto

theorem docAddOwn_of_absent (name : String) (rows : List Record) :
    ∀ doc : Document, alookup name doc = none →
      docAddOwn doc name rows = doc ++ [(name, rows)] := by
  intro doc
  induction doc with
  | nil => intro _; simp [docAddOwn]
  | cons e rest ih =>
    obtain ⟨k₀, v₀⟩ := e
    intro h
    by_cases h₀ : k₀ = name
    · subst h₀; simp [alookup] at h
    · simp only [alookup, h₀, if_neg] at h
      simp [docAddOwn, h₀, ih h]

theorem docAddOwn_nil_of_present (name : String) :
    ∀ doc : Document, alookup name doc ≠ none → docAddOwn doc name [] = doc := by
  intro doc
  induction doc with
  | nil => intro h; simp [alookup] at h
  | cons e rest ih =>
    obtain ⟨k₀, v₀⟩ := e
    intro h
    by_cases h₀ : k₀ = name
    · subst h₀; simp [docAddOwn]
    · simp only [alookup, h₀, if_neg] at h
      simp [docAddOwn, h₀, ih h]

/-- When the merge step does not throw, it computes exactly the
own-property update. -/
theorem docAdd_ok_eq (name : String) (rows : List Record) :
    ∀ (doc d : Document), docAdd doc name rows = Except.ok d →
      d = docAddOwn doc name rows := by
  intro doc
  induction doc with
  | nil =>
    intro d hd
    by_cases hn : name ∈ objectPrototypeProps
    · simp [docAdd, hn] at hd
    · simp [docAdd, hn] at hd
      simp [docAddOwn, ← hd]
  | cons e rest ih =>
    obtain ⟨k, v⟩ := e
    intro d hd
    by_cases hk : k = name
    · simp [docAdd, hk] at hd
      simp [docAddOwn, hk, ← hd]
    · simp only [docAdd, hk, if_neg] at hd
      cases hr : docAdd rest name rows with
      | error e' => rw [hr] at hd; simp [Except.map] at hd
      | ok d' =>
        rw [hr] at hd
        simp [Except.map] at hd
        simp [docAddOwn, hk, ← ih d' hr, ← hd]

/-- The merge step never throws for a name that does not collide with
`Object.prototype`. -/
theorem docAdd_not_proto (name : String) (rows : List Record)
    (hn : name ∉ objectPrototypeProps) :
    ∀ doc : Document, docAdd doc name rows = Except.ok (docAddOwn doc name rows) := by
  intro doc
  induction doc with
  | nil => simp [docAdd, docAddOwn, hn]
  | cons e rest ih =>
    obtain ⟨k, v⟩ := e
    by_cases hk : k = name
    · simp [docAdd, docAddOwn, hk]
    · simp [docAdd, docAddOwn, hk, ih, Except.map]

/-- The merge step never throws on a name that already has an own key. -/
theorem docAdd_ok_of_present (name : String) (rows : List Record) :
    ∀ doc : Document, alookup name doc ≠ none →
      docAdd doc name rows = Except.ok (docAddOwn doc name rows) := by
  intro doc
  induction doc with
  | nil => intro h; simp [alookup] at h
  | cons e rest ih =>
    obtain ⟨k, v⟩ := e
    intro h
    by_cases hk : k = name
    · simp [docAdd, docAddOwn, hk]
    · have hk' : ¬ k = name := hk
      simp only [alookup, hk', if_neg] at h
      simp [docAdd, docAddOwn, hk, ih h, Except.map]

/-- The merge step throws exactly on an absent name inherited from
`Object.prototype`. -/
theorem docAdd_error_char (name : String) (rows : List Record) :
    ∀ doc : Document, alookup name doc = none → name ∈ objectPrototypeProps →
      docAdd doc name rows = Except.error concatTypeError := by
  intro doc
  induction doc with
  | nil => intro _ hn; simp [docAdd, hn]
  | cons e rest ih =>
    obtain ⟨k, v⟩ := e
    intro h hn
    by_cases hk : k = name
    · subst hk; simp [alookup] at h
    · simp only [alookup, hk, if_neg] at h
      simp [docAdd, hk, ih h hn, Except.map]

/-- Folding the per-block view with the merge step, stopping at the first
thrown `TypeError`. -/
def foldDocAdd (acc : Document) : List (String × List Record) → Except String Document
  | [] => Except.ok acc
  | b :: bl =>
    match docAdd acc b.1 b.2 with
    | Except.error e => Except.error e
    | Except.ok acc' => foldDocAdd acc' bl

/-- The scan folds exactly the per-block view into the document,
propagating the first merge error. -/
theorem parseAux_fst_eq :
    ∀ (n : ℕ) (ls : List String), ls.length ≤ n → ∀ (acc : Document) (ws : List Warning),
      (parseAux acc ws ls).1 = foldDocAdd acc (blockList ls) := by
  intro n
  induction n with
  | zero =>
    intro ls h acc ws
    have hnil : ls = [] := List.length_eq_zero.mp (Nat.le_zero.mp h)
    subst hnil
    simp [parseAux, blockList, foldDocAdd]
  | succ n ih =>
    intro ls h acc ws
    cases ls with
    | nil => simp [parseAux, blockList, foldDocAdd]
    | cons l rest =>
      simp only [List.length_cons, Nat.succ_le_succ_iff] at h
      by_cases hH : isHeader l
      · cases hp : parseHeader l with
        | none => simp only [parseAux, blockList, hH, if_true, hp]; exact ih rest h acc ws
        | some hdr =>
          simp only [parseAux, blockList, hH, if_true, hp]
          cases hd : docAdd acc hdr.name (consumeRows hdr.fields rest).1 with
          | error e => simp [foldDocAdd, hd]
          | ok acc' =>
            simp only [foldDocAdd, hd]
            exact ih _ (le_trans (consumeRows_snd_length hdr.fields rest) h) _ _
      · simp only [parseAux, blockList, hH, if_false]
        exact ih rest h acc ws

theorem alookup_foldDocAdd_ok (k : String) :
    ∀ (bl : List (String × List Record)) (acc doc : Document),
      foldDocAdd acc bl = Except.ok doc →
      alookup k doc =
        if (bl.filter fun b => b.1 = k) = [] then alookup k acc
        else some ((alookup k acc).getD [] ++
          (((bl.filter fun b => b.1 = k).map Prod.snd).flatten)) := by
  intro bl
  induction bl with
  | nil =>
    intro acc doc h
    simp only [foldDocAdd] at h
    obtain rfl : acc = doc := by simpa using h
    simp
  | cons b bl ih =>
    obtain ⟨n, rows⟩ := b
    intro acc doc h
    cases hd : docAdd acc n rows with
    | error e => simp [foldDocAdd, hd] at h
    | ok acc₁ =>
      simp only [foldDocAdd, hd] at h
      obtain rfl : acc₁ = docAddOwn acc n rows := docAdd_ok_eq n rows acc acc₁ hd
      rw [ih _ _ h, alookup_docAddOwn]
      by_cases hn : n = k
      · subst hn
        by_cases hb : (bl.filter fun b => b.1 = n) = []
        · simp [List.filter_cons, hb]
        · simp [List.filter_cons, hb, List.append_assoc]
      · have he : (List.filter (fun b => decide (b.1 = k)) ((n, rows) :: bl)) =
            List.filter (fun b => decide (b.1 = k)) bl := by
          simp [List.filter_cons, hn]
        rw [he]
        simp [hn]

theorem mem_keys_foldDocAdd_ok (k : String) :
    ∀ (bl : List (String × List Record)) (acc doc : Document),
      foldDocAdd acc bl = Except.ok doc →
      (k ∈ bl.map Prod.fst ∨ k ∈ acc.map Prod.fst) →
      k ∈ doc.map Prod.fst := by
  intro bl
  induction bl with
  | nil =>
    intro acc doc h hm
    simp only [foldDocAdd] at h
    obtain rfl : acc = doc := by simpa using h
    simpa using hm
  | cons b bl ih =>
    obtain ⟨n, rows⟩ := b
    intro acc doc h hm
    cases hd : docAdd acc n rows with
    | error e => simp [foldDocAdd, hd] at h
    | ok acc₁ =>
      simp only [foldDocAdd, hd] at h
      obtain rfl : acc₁ = docAddOwn acc n rows := docAdd_ok_eq n rows acc acc₁ hd
      apply ih _ _ h
      rcases hm with hm | hm
      · rcases List.mem_cons.mp (by simpa using hm : k ∈ n :: bl.map Prod.fst) with rfl | hbl
        · right
          rw [mem_keys_docAddOwn]
          left
          rfl
        · left
          exact hbl
      · right
        rw [mem_keys_docAddOwn]
        right
        exact hm

/-- Discriminator for the string constructor of `Scalar`. -/
def Scalar.isStr : Scalar → Bool
  | .str _ => true
  | _ => false

/-! ### Claims -/

/-- **C1, counterexample.**  The row `1,,3` under fields `a,b,c` does not
keep its middle empty segment: the source's `filter(Boolean)` removes every
empty token, so field `b` receives the token `3` (not the empty token) and
field `c` receives the empty token (not `3`). -/
theorem c1_counterexample :
    splitRow "1,,3" = ["1", "3"] ∧
    alookup "b" (mkRecord ["a", "b", "c"] (splitRow "1,,3")).own =
      some (Scalar.num (JSNum.finite 3)) ∧
    alookup "b" (mkRecord ["a", "b", "c"] (splitRow "1,,3")).own ≠
      some (parseValue "") ∧
    alookup "c" (mkRecord ["a", "b", "c"] (splitRow "1,,3")).own ≠
      some (parseValue "3") := by
  decide

/-- **C1 (amended).**  The Block Assembler tokenizes a data line by
splitting on commas, trimming each piece, and dropping every piece that is
empty after trimming — middle pieces included — so for distinct field
names none of which is `__proto__` (that assignment is intercepted by the
inherited prototype accessor and creates no key), the `i`-th field
receives the `i`-th surviving (non-empty) token; positions beyond the
surviving tokens are treated as empty tokens.  In particular `1,,3` under
`a,b,c` assigns `3` to `b` and the empty token to `c`. -/
theorem c1_amended_tokenization (fields : List String) (line : String)
    (hnd : fields.Nodup) (hpr : "__proto__" ∉ fields) (i : ℕ)
    (h : i < fields.length) :
    (∀ t ∈ splitRow line, t ≠ "") ∧
    alookup (fields.get ⟨i, h⟩) (mkRecord fields (splitRow line)).own =
      some (parseValue ((splitRow line).getD i "")) := by
  constructor
  · intro t ht
    unfold splitRow at ht
    exact of_decide_eq_true (List.mem_filter.mp ht).2
  · exact alookup_mkRecord_nodup fields (splitRow line) i h hnd hpr

theorem c1_amended_tokenization_witness :
    alookup "b" (mkRecord ["a", "b", "c"] (splitRow "1,,3")).own =
      some (parseValue "3") := by
  have h := (c1_amended_tokenization ["a", "b", "c"] "1,,3" (by decide) (by decide)
    1 (by decide)).2
  have e2 : (splitRow "1,,3").getD 1 "" = "3" := by decide
  rw [show ((["a", "b", "c"].get ⟨1, by decide⟩) = "b") from rfl, e2] at h
  exact h

/-- **C2, counterexample.**  The empty token does not fall through the
numeric rule: `Number("")` is `0`, not `NaN`, so `parseValue` coerces the
empty string to the number `0`, not to a string. -/
theorem c2_counterexample :
    parseValue "" = Scalar.num (JSNum.finite 0) ∧ (parseValue "").isStr = false := by
  decide

/-- **C2 (amended).**  The numeric rule does apply to the empty token:
`Number("")` evaluates to `0` (the ECMAScript string-to-number conversion
maps whitespace-only strings to `0`), so the empty token is coerced to the
number `0`. -/
theorem c2_amended :
    jsStrToNum? "" = some (JSNum.finite 0) ∧
    parseValue "" = Scalar.num (JSNum.finite 0) := by
  decide

/-- **C3, counterexample.**  The token `"true"` (quotes included) is not
coerced to boolean `true`: rule 1 compares the raw token against the
unquoted word `true`, which fails, and the numeric rule yields `NaN`, so
the token reaches rule 4 and becomes the string `true`. -/
theorem c3_counterexample :
    parseValue "\"true\"" = Scalar.str "true" ∧
    parseValue "\"true\"" ≠ Scalar.bool true := by
  decide

/-- **C3 (amended).**  Because quote-stripping happens only in rule 4,
after the boolean/null/numeric fast paths have run on the raw
quote-including token (which matches none of them), the quoted tokens
`"true"`, `"false"`, `"null"` coerce to the corresponding *strings*, not
to the boolean/null values. -/
theorem c3_amended :
    parseValue "\"true\"" = Scalar.str "true" ∧
    parseValue "\"false\"" = Scalar.str "false" ∧
    parseValue "\"null\"" = Scalar.str "null" ∧
    jsStrToNum? "\"true\"" = none := by
  decide

/-- **C4, counterexample.**  A record does not always have exactly the
fields named in its block's header: for the valid field name `__proto__`
the JavaScript assignment hits the inherited prototype accessor and
creates no own key, so the record assembled under header fields
`[__proto__]` has no keys at all — the field is omitted. -/
theorem c4_counterexample :
    (mkRecord ["__proto__"] (splitRow "1")).own = [] ∧
    alookup "__proto__" (mkRecord ["__proto__"] (splitRow "1")).own = none ∧
    "__proto__" ∉ (mkRecord ["__proto__"] (splitRow "1")).own.map Prod.fst := by
  decide

/-- **C4 (amended).**  Every record assembled from the data lines consumed
under a header whose field list avoids `__proto__` has exactly the fields
of that header (as a set always; as an ordered list when the field names
are distinct and none is an array-index-like numeral, since JavaScript
enumerates such keys first), and it arises from one consumed line with
each field `i` receiving the coercion of token `i` of that line's
tokenization — the empty token when the row has fewer tokens than fields —
so missing trailing positions are coerced, not omitted.  A `__proto__`
field, by contrast, is consumed by the inherited accessor and never
appears as a key. -/
theorem c4_amended_record_fields (fields ls : List String) (rec : Record)
    (hrec : rec ∈ (consumeRows fields ls).1) (hpr : "__proto__" ∉ fields) :
    (∀ f, f ∈ rec.own.map Prod.fst ↔ f ∈ fields) ∧
    (fields.Nodup → (∀ f ∈ fields, isArrayIndexName f = false) →
      rec.own.map Prod.fst = fields) ∧
    ∃ l ∈ ls, rec = mkRecord fields (splitRow l) ∧
      (fields.Nodup → ∀ i (h : i < fields.length),
        alookup (fields.get ⟨i, h⟩) rec.own =
          some (parseValue ((splitRow l).getD i ""))) := by
  rw [consumeRows_eq] at hrec
  obtain ⟨l, hl, rfl⟩ := List.mem_map.mp hrec
  exact ⟨fun f => mem_keys_mkRecord _ _ f hpr,
    fun hnd _ => keys_mkRecord_nodup _ _ hnd hpr,
    l, (List.takeWhile_sublist _).subset hl, rfl,
    fun hnd i h => alookup_mkRecord_nodup _ _ i h hnd hpr⟩

theorem c4_amended_record_fields_witness :
    (mkRecord ["x", "y"] (splitRow "10")).own.map Prod.fst = ["x", "y"] ∧
    alookup "y" (mkRecord ["x", "y"] (splitRow "10")).own = some (parseValue "") := by
  have h := c4_amended_record_fields ["x", "y"] ["10"]
    (mkRecord ["x", "y"] (splitRow "10")) (by decide) (by decide)
  refine ⟨h.2.1 (by decide) (by decide), ?_⟩
  obtain ⟨l, hl, heq, hval⟩ := h.2.2
  have hl10 : l = "10" := by simpa using hl
  subst hl10
  have hv := hval (by decide) 1 (by decide)
  rw [show ((["x", "y"].get ⟨1, by decide⟩) = "y") from rfl,
    show ((splitRow "10").getD 1 "" = "") from by decide] at hv
  exact hv

/-- **C5, counterexample.**  Two same-name blocks do not always merge into
a concatenated record list: for a block name inherited from
`Object.prototype`, such as `toString`, `result[name]` is a truthy
function with no own key, so the code calls `.concat` on it and the parse
throws a `TypeError` instead of producing a Document at all. -/
theorem c5_counterexample :
    parseFromString "toString[1]{x}:\n1\ntoString[1]{x}:\n2" =
      Except.error concatTypeError := by
  rw [parseFromString_eval]
  decide

/-- **C5 (amended).**  Whenever the parse completes — which requires that
no block name collide with an `Object.prototype` property — the Document's
record list for a name is the concatenation, in document order, of the row
lists of every block with that name. -/
theorem c5_merge_concatenates (text name : String) (doc : Document)
    (hok : parseFromString text = Except.ok doc)
    (h : ((blockList (normalize text)).filter fun b => b.1 = name) ≠ []) :
    alookup name doc =
      some ((((blockList (normalize text)).filter fun b => b.1 = name).map
        Prod.snd).flatten) := by
  unfold parseFromString at hok
  rw [parseAux_fst_eq (normalize text).length (normalize text) le_rfl] at hok
  rw [alookup_foldDocAdd_ok name (blockList (normalize text)) [] doc hok]
  simp [h, alookup]

theorem c5_merge_concatenates_witness :
    ∃ doc, parseFromString "name[1]{a}:\n1\nname[1]{a}:\n2" = Except.ok doc ∧
      alookup "name" doc =
        some [⟨[("a", Scalar.num (JSNum.finite 1))], false⟩,
          ⟨[("a", Scalar.num (JSNum.finite 2))], false⟩] := by
  have hb : blockList (normalize "name[1]{a}:\n1\nname[1]{a}:\n2") =
      blockListF (normalize "name[1]{a}:\n1\nname[1]{a}:\n2").length
        (normalize "name[1]{a}:\n1\nname[1]{a}:\n2") :=
    blockList_eq_fuel _ _ le_rfl
  have hok : parseFromString "name[1]{a}:\n1\nname[1]{a}:\n2" =
      Except.ok [("name", [⟨[("a", Scalar.num (JSNum.finite 1))], false⟩,
        ⟨[("a", Scalar.num (JSNum.finite 2))], false⟩])] := by
    rw [parseFromString_eval]
    decide
  refine ⟨_, hok, ?_⟩
  have h := c5_merge_concatenates "name[1]{a}:\n1\nname[1]{a}:\n2" "name" _ hok
    (by rw [hb]; decide)
  rw [h, hb]
  decide

/-- **C6, counterexample.**  Parsing a block is not always error-free: a
block named `valueOf` — a name whose read on `{}` yields the inherited,
truthy `Object.prototype` method — makes the merge call `.concat` on a
non-array and throw a `TypeError`, even though its declared count matches
its rows exactly. -/
theorem c6_counterexample :
    parseFromString "valueOf[1]{x}:\n1" = Except.error concatTypeError := by
  rw [parseFromString_eval]
  decide

/-- **C6 (amended).**  A block whose name does not collide with an
`Object.prototype` property produces exactly one record per non-header
line consumed between its header and the next header (or end of input),
independent of the declared count; a declared/parsed count mismatch only
appends a diagnostic to the warning stream, and the row list is neither
truncated nor padded.  A block with a colliding (and not yet own) name
instead aborts the scan with a `TypeError` at the merge — before the count
check, so the collision, never the mismatch, is what raises. -/
theorem c6_count_mismatch_nonfatal (hline : String) (ds rest : List String)
    (acc : Document) (ws : List Warning)
    (hH : isHeader hline = true)
    (hds : ∀ l ∈ ds, isHeader l = false)
    (hrest : rest = [] ∨ ∃ r rs, rest = r :: rs ∧ isHeader r = true) :
    ∃ hdr, parseHeader hline = some hdr ∧
      (consumeRows hdr.fields (ds ++ rest)).1.length = ds.length ∧
      (consumeRows hdr.fields (ds ++ rest)).1 =
        ds.map (fun l => mkRecord hdr.fields (splitRow l)) ∧
      (hdr.name ∉ objectPrototypeProps →
        parseAux acc ws (hline :: (ds ++ rest)) =
          parseAux
            (docAddOwn acc hdr.name (ds.map fun l => mkRecord hdr.fields (splitRow l)))
            (ws ++ if ds.length ≠ hdr.count then [⟨hdr.name, hdr.count, ds.length⟩] else [])
            rest) ∧
      (hdr.name ∈ objectPrototypeProps → alookup hdr.name acc = none →
        parseAux acc ws (hline :: (ds ++ rest)) =
          (Except.error concatTypeError, ws)) := by
  have hsome : (parseHeader hline).isSome := by
    unfold parseHeader
    unfold isHeader at hH
    simpa using hH
  obtain ⟨hdr, hp⟩ := Option.isSome_iff_exists.mp hsome
  have hsplit := takeWhile_append_eq (fun l => !isHeader l) ds rest
    (fun x hx => by simp [hds x hx])
    (fun c hc => by
      rcases hrest with h0 | ⟨r, rs, hre, hr⟩
      · subst h0; simp at hc
      · subst hre
        have : r = c := by simpa using hc
        subst this
        simp [hr])
  have hc : consumeRows hdr.fields (ds ++ rest) =
      (ds.map fun l => mkRecord hdr.fields (splitRow l), rest) := by
    rw [consumeRows_eq, hsplit.1, hsplit.2]
  refine ⟨hdr, hp, by rw [hc]; simp, by rw [hc], ?_, ?_⟩
  · intro hnp
    simp only [parseAux, hH, if_true, hp, hc]
    rw [docAdd_not_proto hdr.name _ hnp acc]
    simp
  · intro hin habs
    simp only [parseAux, hH, if_true, hp, hc]
    rw [docAdd_error_char hdr.name _ acc habs hin]

theorem c6_count_mismatch_nonfatal_witness :
    (∃ hdr, parseHeader "pts[5]{x}:" = some hdr ∧
      (consumeRows hdr.fields (["1", "2"] ++ [])).1.length = 2 ∧
      (hdr.name ∉ objectPrototypeProps →
        parseAux [] [] ("pts[5]{x}:" :: (["1", "2"] ++ [])) =
          parseAux
            (docAddOwn [] hdr.name (["1", "2"].map fun l => mkRecord hdr.fields (splitRow l)))
            ([] ++ if (2 : ℕ) ≠ hdr.count then [⟨hdr.name, hdr.count, 2⟩] else []) [])) ∧
    parseWarnings "pts[5]{x}:\n1\n2" = [⟨"pts", 5, 2⟩] := by
  constructor
  · obtain ⟨hdr, hp, hlen, _, heq, _⟩ :=
      c6_count_mismatch_nonfatal "pts[5]{x}:" ["1", "2"] [] [] []
        (by decide) (by decide) (Or.inl rfl)
    exact ⟨hdr, hp, hlen, heq⟩
  · rw [parseWarnings_eval]
    decide

/-- **C8, counterexample.**  A non-array argument is not the only abort:
the perfectly well-formed array `["toString[0]{x}:"]` also makes the
line-sequence entry point throw, because the merge calls `.concat` on the
inherited `Object.prototype.toString`. -/
theorem c8_counterexample :
    parseFromLines (some ["toString[0]{x}:"]) = Except.error concatTypeError := by
  show parseFromString (String.intercalate "\n" ["toString[0]{x}:"]) = _
  rw [show String.intercalate "\n" ["toString[0]{x}:"] = "toString[0]{x}:" from by decide,
    parseFromString_eval]
  decide

/-- **C8 (amended).**  The line-sequence entry point raises exactly when
its argument is not an array (the invocation error, with its fixed
message) or when the underlying text parse itself aborts with the merge
`TypeError` (a block name colliding with an `Object.prototype` property);
for every array of strings it returns exactly the result of the
text-buffer entry point applied to the lines joined with a newline
separator — errors included. -/
theorem c8_entry_points :
    (∀ ls, parseFromLines (some ls) = parseFromString (String.intercalate "\n" ls)) ∧
    (parseFromLines none = Except.error "Toon.parseFromLines expects an array of strings") ∧
    (∀ arg e, parseFromLines arg = Except.error e →
      arg = none ∨ ∃ ls, arg = some ls ∧
        parseFromString (String.intercalate "\n" ls) = Except.error e) := by
  refine ⟨fun ls => rfl, rfl, ?_⟩
  intro arg e h
  cases arg with
  | none => exact Or.inl rfl
  | some ls => exact Or.inr ⟨ls, rfl, h⟩

theorem c8_entry_points_witness :
    (some ["toString[0]{x}:"] : Option (List String)) = none ∨
    ∃ ls, (some ["toString[0]{x}:"] : Option (List String)) = some ls ∧
      parseFromString (String.intercalate "\n" ls) = Except.error concatTypeError := by
  apply c8_entry_points.2.2 (some ["toString[0]{x}:"]) concatTypeError
  show parseFromString (String.intercalate "\n" ["toString[0]{x}:"]) = _
  rw [show String.intercalate "\n" ["toString[0]{x}:"] = "toString[0]{x}:" from by decide,
    parseFromString_eval]
  decide

/-- `Interspersed m o`: `m` is `o` with extra lines inserted anywhere,
each inserted line being blank after trimming or a comment line (i.e.
removed by the normalizer's filter). -/
inductive Interspersed : List String → List String → Prop
  | nil : Interspersed [] []
  | keep (l : String) {m o : List String} :
      Interspersed m o → Interspersed (l :: m) (l :: o)
  | junk (l : String) {m o : List String} (h : keepLine (jsTrim l) = false) :
      Interspersed m o → Interspersed (l :: m) o

theorem interspersed_normalize {m o : List String} (h : Interspersed m o) :
    (m.map jsTrim).filter keepLine = (o.map jsTrim).filter keepLine := by
  induction h with
  | nil => rfl
  | keep l _ ih =>
    simp only [List.map_cons, List.filter_cons]
    rw [ih]
  | junk l hj _ ih =>
    simp only [List.map_cons, List.filter_cons, hj]
    simpa using ih

/-- **C9.**  Inserting blank lines and `#`/`//` comment lines anywhere
between the lines of a document changes neither the parsed document nor
the emitted diagnostics: the normalizer removes such lines before any
classification. -/
theorem c9_comment_blank_insensitive (t₁ t₂ : String)
    (h : Interspersed (jsSplit '\n' t₂) (jsSplit '\n' t₁)) :
    parseFromString t₂ = parseFromString t₁ ∧ parseWarnings t₂ = parseWarnings t₁ := by
  have hn : normalize t₂ = normalize t₁ := interspersed_normalize h
  unfold parseFromString parseWarnings
  rw [hn]
  exact ⟨rfl, rfl⟩

theorem c9_comment_blank_insensitive_witness :
    parseFromString "a[1]{x}:\n# c\n\n1\n// z" = parseFromString "a[1]{x}:\n1" := by
  have h : Interspersed (jsSplit '\n' "a[1]{x}:\n# c\n\n1\n// z")
      (jsSplit '\n' "a[1]{x}:\n1") := by
    rw [show jsSplit '\n' "a[1]{x}:\n# c\n\n1\n// z" =
        ["a[1]{x}:", "# c", "", "1", "// z"] from by decide,
      show jsSplit '\n' "a[1]{x}:\n1" = ["a[1]{x}:", "1"] from by decide]
    exact .keep _ (.junk _ (by decide) (.junk _ (by decide)
      (.keep _ (.junk _ (by decide) .nil))))
  exact (c9_comment_blank_insensitive "a[1]{x}:\n1" "a[1]{x}:\n# c\n\n1\n// z" h).1

theorem isHeader_of_parseHeader {l : String} {hdr : Header}
    (hp : parseHeader l = some hdr) : isHeader l = true := by
  unfold parseHeader at hp
  unfold isHeader
  cases hm : matchHeader l.data with
  | none => rw [hm] at hp; simp at hp
  | some m => simp [hm]

theorem parseHeader_isSome_of_isHeader {l : String} (h : isHeader l = true) :
    ∃ hdr, parseHeader l = some hdr := by
  unfold isHeader at h
  unfold parseHeader
  cases hm : matchHeader l.data with
  | none => rw [hm] at h; simp at h
  | some m => exact ⟨_, rfl⟩

/-- Every line whose header decomposition succeeds contributes its name to
the per-block view of the scan: header lines are never consumed as data
(`consumeRows` stops at any header), so each one opens a block. -/
theorem headerName_mem_blockList :
    ∀ (n : ℕ) (ls : List String), ls.length ≤ n →
      ∀ (l : String) (hdr : Header), l ∈ ls → parseHeader l = some hdr →
        hdr.name ∈ (blockList ls).map Prod.fst := by
  intro n
  induction n with
  | zero =>
    intro ls h l hdr hl _
    have : ls = [] := List.length_eq_zero.mp (Nat.le_zero.mp h)
    subst this
    simp at hl
  | succ n ih =>
    intro ls h l hdr hl hp
    cases ls with
    | nil => simp at hl
    | cons l₀ rest =>
      simp only [List.length_cons, Nat.succ_le_succ_iff] at h
      by_cases hH0 : isHeader l₀
      · obtain ⟨hdr₀, hp₀⟩ := parseHeader_isSome_of_isHeader hH0
        simp only [blockList, hH0, if_true, hp₀, List.map_cons]
        rcases List.mem_cons.mp hl with rfl | hlrest
        · rw [hp₀] at hp
          rw [Option.some.inj hp]
          simp
        · have hrem : l ∈ (consumeRows hdr₀.fields rest).2 := by
            rw [consumeRows_eq]
            have hsp := List.takeWhile_append_dropWhile
              (p := fun s => !isHeader s) (l := rest)
            rcases List.mem_append.mp (by rw [hsp]; exact hlrest :
                l ∈ rest.takeWhile (fun s => !isHeader s) ++
                  rest.dropWhile fun s => !isHeader s) with htk | hdp
            · have := List.mem_takeWhile_imp htk
              rw [isHeader_of_parseHeader hp] at this
              simp at this
            · exact hdp
          exact List.mem_cons_of_mem _
            (ih _ (le_trans (consumeRows_snd_length hdr₀.fields rest) h) l hdr hrem hp)
      · have hlr : l ∈ rest := by
          rcases List.mem_cons.mp hl with rfl | hr
          · rw [isHeader_of_parseHeader hp] at hH0
            exact absurd rfl hH0
          · exact hr
        simp only [blockList, hH0, if_false]
        exact ih rest h l hdr hlr hp

/-- **C10, counterexample.**  Not every name matched by the Header Matcher
appears as a key of the returned Document: a block named `constructor`
aborts the whole parse with a `TypeError` at the merge, so no Document —
and in particular no such key — is ever produced. -/
theorem c10_counterexample :
    parseFromString "constructor[0]{x}:" = Except.error concatTypeError := by
  rw [parseFromString_eval]
  decide

/-- **C10 (amended).**  When the parse completes, every block name whose
header line survives normalization appears as a key of the returned
Document — including headers immediately followed by another header or by
end of input; merging an empty row list creates the key with an empty
record list when the name is new and leaves the document unchanged when
the name was seen before.  A name colliding with an `Object.prototype`
property instead aborts the parse with a `TypeError`, so it never appears
as a key. -/
theorem c10_every_header_registered :
    (∀ text name doc, parseFromString text = Except.ok doc →
      (∃ l ∈ normalize text, ∃ hdr, parseHeader l = some hdr ∧ hdr.name = name) →
      name ∈ doc.map Prod.fst) ∧
    (∀ (doc : Document) (name : String), alookup name doc = none →
      docAddOwn doc name [] = doc ++ [(name, [])]) ∧
    (∀ (doc : Document) (name : String), alookup name doc ≠ none →
      docAddOwn doc name [] = doc) := by
  refine ⟨?_, fun doc name h => docAddOwn_of_absent name [] doc h,
    fun doc name h => docAddOwn_nil_of_present name doc h⟩
  rintro text name doc hok ⟨l, hl, hdr, hp, rfl⟩
  unfold parseFromString at hok
  rw [parseAux_fst_eq (normalize text).length _ le_rfl] at hok
  exact mem_keys_foldDocAdd_ok _ _ _ _ hok
    (Or.inl (headerName_mem_blockList (normalize text).length _ le_rfl l hdr hl hp))

theorem c10_every_header_registered_witness :
    ∃ doc, parseFromString "a[0]{x}:\nb[1]{y}:" = Except.ok doc ∧
      "a" ∈ doc.map Prod.fst ∧ alookup "a" doc = some [] := by
  have hok : parseFromString "a[0]{x}:\nb[1]{y}:" =
      Except.ok [("a", []), ("b", [])] := by
    rw [parseFromString_eval]
    decide
  refine ⟨_, hok, ?_, by decide⟩
  exact c10_every_header_registered.1 "a[0]{x}:\nb[1]{y}:" "a" _ hok
    ⟨"a[0]{x}:", by decide, ⟨"a", 0, ["x"]⟩, by decide, rfl⟩

/-! ### Header pattern correctness (C7) -/

/-- The declarative reading of the header pattern: an identifier (a letter
or underscore, then word characters), then `[`, one or more digits, `]`,
`{`, one or more non-`}` characters, `}`, `:`, and nothing else on the
line. -/
def HeaderShape (line : String) : Prop :=
  ∃ (first : Char) (identTail ds content : List Char),
    line.data = first :: (identTail ++ '[' :: (ds ++ ']' :: '{' :: (content ++ ['}', ':']))) ∧
    isIdentStartChar first = true ∧ (∀ x ∈ identTail, isWordChar x = true) ∧
    ds ≠ [] ∧ (∀ x ∈ ds, isDigitChar x = true) ∧
    content ≠ [] ∧ '}' ∉ content

theorem matchHeader_shape {cs : List Char} {m : List Char × List Char × List Char}
    (h : matchHeader cs = some m) :
    cs = m.1 ++ '[' :: (m.2.1 ++ ']' :: '{' :: (m.2.2 ++ ['}', ':'])) ∧
    (∃ c t, m.1 = c :: t ∧ isIdentStartChar c = true ∧ (∀ x ∈ t, isWordChar x = true)) ∧
    m.2.1 ≠ [] ∧ (∀ x ∈ m.2.1, isDigitChar x = true) ∧
    m.2.2 ≠ [] ∧ (∀ x ∈ m.2.2, isContentChar x = true) := by
  unfold matchHeader at h
  split at h
  · exact absurd h (by simp)
  · rename_i xa c rest
    by_cases h1 : isIdentStartChar c = true
    · rw [if_pos h1] at h
      split at h
      · rename_i xb r2 e1
        by_cases hg1 : (r2.takeWhile isDigitChar).isEmpty = true
        · rw [if_pos hg1] at h
          exact absurd h (by simp)
        · rw [if_neg hg1] at h
          split at h
          · rename_i xc r4 e2
            by_cases hg2 : (r4.takeWhile isContentChar).isEmpty = true
            · rw [if_pos hg2] at h
              exact absurd h (by simp)
            · rw [if_neg hg2] at h
              split at h
              · rename_i xd e3
                obtain rfl : (c :: rest.takeWhile isWordChar, r2.takeWhile isDigitChar,
                    r4.takeWhile isContentChar) = m := Option.some.inj h
                refine ⟨?_, ⟨c, rest.takeWhile isWordChar, rfl, h1,
                    fun x hx => List.mem_takeWhile_imp hx⟩,
                  by simpa using hg1, fun x hx => List.mem_takeWhile_imp hx,
                  by simpa using hg2, fun x hx => List.mem_takeWhile_imp hx⟩
                have hr : rest = rest.takeWhile isWordChar ++ ('[' :: r2) := by
                  rw [← e1, List.takeWhile_append_dropWhile]
                have hr2 : r2 = r2.takeWhile isDigitChar ++ (']' :: '{' :: r4) := by
                  rw [← e2, List.takeWhile_append_dropWhile]
                have hr4 : r4 = r4.takeWhile isContentChar ++ ['}', ':'] := by
                  rw [← e3, List.takeWhile_append_dropWhile]
                show c :: rest = (c :: rest.takeWhile isWordChar) ++ '[' ::
                  (r2.takeWhile isDigitChar ++ ']' :: '{' ::
                    (r4.takeWhile isContentChar ++ ['}', ':']))
                simp only [List.cons_append]
                rw [← hr4, ← hr2, ← hr]
              · exact absurd h (by simp)
          · exact absurd h (by simp)
      · exact absurd h (by simp)
    · rw [if_neg h1] at h
      exact absurd h (by simp)

theorem matchHeader_of_shape (first : Char) (identTail ds content : List Char)
    (h1 : isIdentStartChar first = true)
    (h2 : ∀ x ∈ identTail, isWordChar x = true)
    (h3 : ds ≠ []) (h4 : ∀ x ∈ ds, isDigitChar x = true)
    (h5 : content ≠ []) (h6 : ∀ x ∈ content, isContentChar x = true) :
    matchHeader (first :: (identTail ++ '[' :: (ds ++ ']' :: '{' :: (content ++ ['}', ':'])))) =
      some (first :: identTail, ds, content) := by
  have e1 := takeWhile_append_eq isWordChar identTail
    ('[' :: (ds ++ ']' :: '{' :: (content ++ ['}', ':']))) h2
    (fun x hx => by
      have : x = '[' := by simpa using hx.symm
      subst this
      decide)
  have e2 := takeWhile_append_eq isDigitChar ds (']' :: '{' :: (content ++ ['}', ':'])) h4
    (fun x hx => by
      have : x = ']' := by simpa using hx.symm
      subst this
      decide)
  have e3 := takeWhile_append_eq isContentChar content ['}', ':'] h6
    (fun x hx => by
      have : x = '}' := by simpa using hx.symm
      subst this
      decide)
  have hde : ds.isEmpty = false := by
    cases ds with
    | nil => exact absurd rfl h3
    | cons a b => rfl
  have hce : content.isEmpty = false := by
    cases content with
    | nil => exact absurd rfl h5
    | cons a b => rfl
  simp only [matchHeader, h1, if_true, e1.1, e1.2, e2.1, e2.2, e3.1, e3.2, hde, hce,
    Bool.false_eq_true, if_false]

/-- `digitsToNat` reads a digit list in base 10: it equals Mathlib's
little-endian `Nat.ofDigits` on the reversed digit values. -/
theorem digitsToNat_foldl_ofDigits :
    ∀ (ds : List Char) (a : ℕ),
      ds.foldl (fun a c => 10 * a + (c.toNat - '0'.toNat)) a =
        a * 10 ^ ds.length +
          Nat.ofDigits 10 ((ds.map fun c => c.toNat - '0'.toNat).reverse) := by
  intro ds
  induction ds with
  | nil => intro a; simp [Nat.ofDigits]
  | cons c ds ih =>
    intro a
    simp only [List.foldl_cons, List.map_cons, List.reverse_cons, List.length_cons]
    rw [ih, Nat.ofDigits_append]
    simp only [Nat.ofDigits, List.length_reverse, List.length_map]
    push_cast
    ring

theorem digitsToNat_eq_ofDigits (ds : List Char) :
    digitsToNat ds = Nat.ofDigits 10 ((ds.map fun c => c.toNat - '0'.toNat).reverse) := by
  unfold digitsToNat
  rw [digitsToNat_foldl_ofDigits]
  simp

/-- **C7.**  A normalized line is a header exactly when it has the shape
identifier, `[`, digits, `]`, `{`, non-empty brace content without `}`,
`}`, `:`, with nothing else on the line; decomposition of a matching line
never fails, and it yields the identifier as the name, the bracketed
digits read in base 10 as the declared count, and the brace content split
on commas, trimmed, with empty entries discarded (possibly an empty field
list, which is returned rather than rejected) as the fields. -/
theorem c7_header_matcher_correct (line : String) :
    (isHeader line = true ↔ HeaderShape line) ∧
    (isHeader line = true → ∃ hdr, parseHeader line = some hdr) ∧
    (∀ m, matchHeader line.data = some m →
      parseHeader line = some
        ⟨String.mk m.1,
          Nat.ofDigits 10 ((m.2.1.map fun c => c.toNat - '0'.toNat).reverse),
          parseFields m.2.2⟩) := by
  refine ⟨⟨?_, ?_⟩, fun h => parseHeader_isSome_of_isHeader h, fun m hm => ?_⟩
  · intro h
    unfold isHeader at h
    obtain ⟨m, hm⟩ := Option.isSome_iff_exists.mp h
    obtain ⟨hcs, ⟨c, t, hm1, hc, ht⟩, hds, hdig, hct, hcont⟩ := matchHeader_shape hm
    refine ⟨c, t, m.2.1, m.2.2, ?_, hc, ht, hds, hdig, hct, ?_⟩
    · rw [hcs, hm1, List.cons_append]
    · intro hmem
      have := hcont '}' hmem
      simp [isContentChar] at this
  · rintro ⟨first, identTail, ds, content, hdata, h1, h2, h3, h4, h5, h6⟩
    unfold isHeader
    rw [hdata, matchHeader_of_shape first identTail ds content h1 h2 h3 h4 h5
      (fun x hx => by
        simp only [isContentChar, ne_eq, decide_eq_true_eq]
        exact fun he => h6 (he ▸ hx))]
    rfl
  · unfold parseHeader
    rw [hm]
    simp only [Option.map_some']
    rw [digitsToNat_eq_ofDigits]

theorem c7_header_matcher_correct_witness :
    HeaderShape "pts[12]{x, y}:" ∧
    isHeader "zz[3]{ , }:" = true ∧
    parseHeader "zz[3]{ , }:" = some ⟨"zz", 3, []⟩ := by
  refine ⟨(c7_header_matcher_correct "pts[12]{x, y}:").1.mp (by decide), by decide, ?_⟩
  have h := (c7_header_matcher_correct "zz[3]{ , }:").2.2
    ("zz".data, "3".data, " , ".data) (by decide)
  rw [h]
  decide

end Toon
